import Mathlib

/-!
Verification of the text-normalizer core of the product scraper
(`src/Scraping/dist/scrapers/ts/product_scraper.js`) and the description
truncation of the example scraper
(`src/Scraping/src/scrapers/ts/example_scraper.ts`).

Strings are modelled as `List Char`; JavaScript numbers are modelled as
`Option ℚ`, where `none` stands for `NaN` (every numeric literal the parsers
feed to `parseFloat`/`parseInt` is a decimal literal, which is exact in `ℚ`;
the only way the code produces a non-decimal value is `parseFloat("")`,
i.e. `NaN`).  JavaScript regular expressions are modelled by direct scanners
implementing the leftmost-match and greedy-with-backtracking semantics of the
concrete patterns appearing in the source.
-/

attribute [local semireducible] Rat.add Rat.sub Rat.mul Rat.inv Rat.ofScientific

/-- JavaScript number: `none` models `NaN`. -/
abbrev JsNum := Option ℚ

/-- The whitespace characters relevant to `String.prototype.trim`, `\s` and
regex `.` (which excludes line terminators). ASCII scope. -/
def isWsChar (c : Char) : Bool :=
  c = ' ' || c = '\t' || c = '\n' || c = '\r'

/-- `String.prototype.trim`: drop whitespace from both ends. -/
def trimLeft (l : List Char) : List Char := l.dropWhile isWsChar

/-- Right trim via reversal. -/
def trimRight (l : List Char) : List Char := (l.reverse.dropWhile isWsChar).reverse

/-- `String.prototype.trim` (product_scraper.js:229). -/
def trim (l : List Char) : List Char := trimRight (trimLeft l)

/-- `String.prototype.includes(needle)`: substring test. -/
def listIncludes (hay needle : List Char) : Bool :=
  match hay with
  | [] => needle.isEmpty
  | c :: t => needle.isPrefixOf (c :: t) || listIncludes t needle

/-- Characters matched by `[0-9,]`. -/
def isDigitOrComma (c : Char) : Bool := c.isDigit || c = ','

/-- `replace(/,/g, '')` (product_scraper.js:243 etc.). -/
def stripCommas (l : List Char) : List Char := l.filter (fun c => !(c = ','))

/-- Value of a digit string (used for `parseInt` on matched digit runs). -/
def digitsToNat (l : List Char) : Nat :=
  l.foldl (fun a c => 10 * a + (c.toNat - 48)) 0

/-- `parseFloat` restricted to the shapes produced by the price regexes after
comma stripping: leading digits, optionally a fractional part. Returns `none`
(`NaN`) when there is no leading digit and no fractional digit, exactly as
`parseFloat("")`/`parseFloat(".")` return `NaN`. -/
def parseFloatQ (l : List Char) : Option ℚ :=
  let d := l.takeWhile Char.isDigit
  let rest := l.dropWhile Char.isDigit
  match rest with
  | '.' :: f =>
    let fd := f.takeWhile Char.isDigit
    if d = [] ∧ fd = [] then none
    else some ((digitsToNat d : ℚ) + (digitsToNat fd : ℚ) / (10 : ℚ) ^ fd.length)
  | _ => if d = [] then none else some ((digitsToNat d : ℚ))

/-- The currency symbol class `[₹$€£¥]` of the price regexes. -/
def priceSymbols : List Char := ['₹', '$', '€', '£', '¥']

/-- Greedy match of `[0-9,]+(\.[0-9]{2})?` at the current position, returning
the matched text and the remainder. The optional fractional group needs a dot
followed by exactly two digits. -/
def matchNum (l : List Char) : Option (List Char × List Char) :=
  let d := l.takeWhile isDigitOrComma
  let rest := l.dropWhile isDigitOrComma
  if d = [] then none
  else
    match rest with
    | '.' :: a :: b :: rest2 =>
      if a.isDigit && b.isDigit then some (d ++ ['.', a, b], rest2)
      else some (d, rest)
    | _ => some (d, rest)

/-- Match `([₹$€£¥])\s*([0-9,]+(\.[0-9]{2})?)` anchored at the current
position, returning symbol, numeric text, and remainder. -/
def matchSymNumAt : List Char → Option (Char × List Char × List Char)
  | [] => none
  | c :: rest =>
    if priceSymbols.contains c then
      match matchNum (rest.dropWhile isWsChar) with
      | some (n, rest2) => some (c, n, rest2)
      | none => none
    else none

/-- Leftmost match of `([₹$€£¥])\s*([0-9,]+(\.[0-9]{2})?)`
(product_scraper.js:240). -/
def findSymNum : List Char → Option (Char × List Char)
  | [] => none
  | c :: rest =>
    match matchSymNumAt (c :: rest) with
    | some (s, n, _) => some (s, n)
    | none => findSymNum rest

/-- Leftmost match of `([0-9,]+(\.[0-9]{2})?)` (product_scraper.js:248). -/
def findNum : List Char → Option (List Char)
  | [] => none
  | c :: rest =>
    if isDigitOrComma c then
      match matchNum (c :: rest) with
      | some (n, _) => some n
      | none => none
    else findNum rest

/-- The second token of the discount regex: because `.*` is greedy, the
engine commits to the rightmost start position where
`([₹$€£¥])\s*([0-9,]+(\.[0-9]{2})?)` still matches; `.` does not cross line
terminators, so start positions beyond a `\n`/`\r` are unreachable. -/
def findSymNumLastNoNL : List Char → Option (Char × List Char)
  | [] => none
  | c :: rest =>
    match (if c = '\n' || c = '\r' then none else findSymNumLastNoNL rest) with
    | some r => some r
    | none =>
      match matchSymNumAt (c :: rest) with
      | some (s, n, _) => some (s, n)
      | none => none

/-- Leftmost match of the discount-pair regex
`([₹$€£¥])\s*([0-9,]+(\.[0-9]{2})?).*([₹$€£¥])\s*([0-9,]+(\.[0-9]{2})?)`
(product_scraper.js:256), returning the two symbol/number token pairs. -/
def findDiscountPair : List Char → Option (Char × List Char × Char × List Char)
  | [] => none
  | c :: rest =>
    match matchSymNumAt (c :: rest) with
    | some (s1, n1, rest2) =>
      match findSymNumLastNoNL rest2 with
      | some (s2, n2) => some (s1, n1, s2, n2)
      | none => findDiscountPair rest
    | none => findDiscountPair rest

/-- The symbol → ISO code table of `getCurrencyCode`
(product_scraper.js:304-319); unmapped symbols default to USD. -/
def getCurrencyCode (symbol : Char) : List Char :=
  if symbol = '$' then "USD".data
  else if symbol = '€' then "EUR".data
  else if symbol = '£' then "GBP".data
  else if symbol = '¥' then "JPY".data
  else if symbol = '₹' then "INR".data
  else if symbol = '₽' then "RUB".data
  else if symbol = '₩' then "KRW".data
  else if symbol = '₫' then "VND".data
  else if symbol = '฿' then "THB".data
  else if symbol = '₴' then "UAH".data
  else if symbol = '₺' then "TRY".data
  else "USD".data

/-- JavaScript `x || dflt` on an optional string: `undefined` and the empty
string are falsy. -/
def jsOr (hint : Option (List Char)) (dflt : List Char) : List Char :=
  match hint with
  | some h => if h = [] then dflt else h
  | none => dflt

/-- JavaScript `>` on numbers: false whenever an operand is `NaN`. -/
def jsGT (a b : JsNum) : Bool :=
  match a, b with
  | some x, some y => decide (y < x)
  | _, _ => false

/-- JavaScript subtraction with `NaN` propagation. -/
def jsSub (a b : JsNum) : JsNum :=
  match a, b with
  | some x, some y => some (x - y)
  | _, _ => none

/-- JavaScript multiplication with `NaN` propagation. -/
def jsMul (a b : JsNum) : JsNum :=
  match a, b with
  | some x, some y => some (x * y)
  | _, _ => none

/-- JavaScript division with `NaN` propagation (division by zero, which the
code guards against, is also sent to `none`). -/
def jsDiv (a b : JsNum) : JsNum :=
  match a, b with
  | some x, some y => if y = 0 then none else some (x / y)
  | _, _ => none

/-- `Math.round`: round half towards positive infinity. -/
def jsRound (a : JsNum) : JsNum :=
  a.map (fun q => ((⌊q + 1 / 2⌋ : ℤ) : ℚ))

/-- The `ProductPrice` record built by `parsePrice`
(product_scraper.js:60-68, 279-287). -/
structure ProductPrice where
  amount : JsNum
  currency : List Char
  formatted : List Char
  discounted : Bool
  originalAmount : Option JsNum := none
  originalFormatted : Option (List Char) := none
  discountPercentage : Option JsNum := none
deriving DecidableEq, Repr

def usdCode : List Char := "USD".data

def dollarStr : List Char := "$".data

def zeroDollarStr : List Char := "$0.00".data

/-- `cleanText.includes('$') && (cleanText.match(/\$/g) || []).length > 1`
(product_scraper.js:231). -/
def hasDiscountCheck (ct : List Char) : Bool :=
  ct.contains '$' && decide (1 < ct.count '$')

/-- The current-price extraction of `parsePrice` (product_scraper.js:239-253):
symbol-prefixed token, else bare numeric token, else defaults. -/
def priceBase (ct : List Char) (hint : Option (List Char)) (hasD : Bool) : ProductPrice :=
  match findSymNum ct with
  | some (s, n) =>
    { amount := parseFloatQ (stripCommas n)
      currency := getCurrencyCode s
      formatted := (s :: n)
      discounted := hasD }
  | none =>
    match findNum ct with
    | some n =>
      { amount := parseFloatQ (stripCommas n)
        currency := jsOr hint usdCode
        formatted := jsOr hint dollarStr ++ n
        discounted := hasD }
    | none =>
      { amount := some 0
        currency := jsOr hint usdCode
        formatted := ct
        discounted := hasD }

/-- `if (originalAmount > 0) discountPercentage = Math.round(((originalAmount
- amount) / originalAmount) * 100)` (product_scraper.js:274-276). -/
def discountPct (oa am : JsNum) : Option JsNum :=
  if jsGT oa (some 0) then some (jsRound (jsMul (jsDiv (jsSub oa am) oa) (some 100)))
  else none

/-- The discount branch of `parsePrice` (product_scraper.js:254-278): on a
pair match, the larger value becomes the original price and the smaller the
current one. -/
def applyDiscount (ct : List Char) (base : ProductPrice) : ProductPrice :=
  match findDiscountPair ct with
  | some (s1, n1, s2, n2) =>
    let p1 := parseFloatQ (stripCommas n1)
    let p2 := parseFloatQ (stripCommas n2)
    if jsGT p1 p2 then
      { base with
          amount := p2
          formatted := (s2 :: n2)
          originalAmount := some p1
          originalFormatted := some (s1 :: n1)
          discountPercentage := discountPct p1 p2 }
    else
      { base with
          amount := p1
          formatted := (s1 :: n1)
          originalAmount := some p2
          originalFormatted := some (s2 :: n2)
          discountPercentage := discountPct p2 p1 }
  | none => base

/-- Body of `parsePrice` after the empty-input check, operating on the
trimmed text (product_scraper.js:227-287). -/
def parsePriceCore (ct : List Char) (hint : Option (List Char)) : ProductPrice :=
  let hasD := hasDiscountCheck ct
  if hasD then applyDiscount ct (priceBase ct hint hasD)
  else priceBase ct hint hasD

/-- `parsePrice` (product_scraper.js:218-298). The `try`/`catch` is dead in
the model: every step is total. -/
def parsePrice (priceText : List Char) (currencySymbol : Option (List Char)) : ProductPrice :=
  if priceText = [] then
    { amount := some 0
      currency := jsOr currencySymbol usdCode
      formatted := zeroDollarStr
      discounted := false }
  else parsePriceCore (trim priceText) currencySymbol

/-- Leftmost match of `/([0-9]\.[0-9]|[0-5])/` (product_scraper.js:328): at
each position the `[0-9]\.[0-9]` alternative is tried before `[0-5]`. -/
def findRatingNum : List Char → Option (List Char)
  | [] => none
  | c :: rest =>
    if c.isDigit then
      match rest with
      | '.' :: d :: _ =>
        if d.isDigit then some [c, '.', d]
        else if c ≤ '5' then some [c]
        else findRatingNum rest
      | _ =>
        if c ≤ '5' then some [c]
        else findRatingNum rest
    else findRatingNum rest

/-- `parseFloat` on the two shapes `findRatingNum` can return. -/
def ratNumOf : List Char → ℚ
  | [c, '.', d] => (c.toNat - 48 : ℕ) + ((d.toNat - 48 : ℕ) : ℚ) / 10
  | [c] => ((c.toNat - 48 : ℕ) : ℚ)
  | _ => 0

/-- Leftmost match of `/([0-9]+)%/` (product_scraper.js:339): a maximal digit
run immediately followed by a percent sign (shrinking the greedy `[0-9]+`
exposes a digit, never `%`, so only maximal runs can match). -/
def findPercent : List Char → Option (List Char)
  | [] => none
  | c :: rest =>
    if c.isDigit then
      match (c :: rest).dropWhile Char.isDigit with
      | '%' :: _ => some ((c :: rest).takeWhile Char.isDigit)
      | _ => findPercent rest
    else findPercent rest

/-- `parseRating` (product_scraper.js:325-348): numeric literal, then star
glyphs, then percentage, else 0. -/
def parseRating (ratingText : List Char) : ℚ :=
  match findRatingNum ratingText with
  | some n => ratNumOf n
  | none =>
    let fullStars := ratingText.count '★' + ratingText.count '*'
    let emptyStars := ratingText.count '☆' + ratingText.count '-'
    if 0 < fullStars ∨ 0 < emptyStars then
      (fullStars : ℚ) / ((fullStars : ℚ) + (emptyStars : ℚ)) * 5
    else
      match findPercent ratingText with
      | some d => (((⌊(digitsToNat d : ℚ) / 20 * 100 + 1 / 2⌋ : ℤ) : ℚ)) / 100
      | none => 0

/-- Count of filled star markers (`★` or `*`), product_scraper.js:333. -/
def starsFilled (s : List Char) : ℕ := s.count '★' + s.count '*'

/-- Count of empty star markers (`☆` or `-`), product_scraper.js:334. -/
def starsEmpty (s : List Char) : ℕ := s.count '☆' + s.count '-'

/-- Modelled from the amended specification sentence for the rating
normalizer: apply only the first matching rule of (a) a numeric literal
matching `/([0-9]\.[0-9]|[0-5])/` returned as that number, (b) glyph
counting scaled to 5, (c) a percentage token `N%` as `round(N/20*100)/100`,
(d) the default 0. -/
def ratingByPriority (s : List Char) : ℚ :=
  match findRatingNum s with
  | some lit => ratNumOf lit
  | none =>
    if 0 < starsFilled s ∨ 0 < starsEmpty s then
      (starsFilled s : ℚ) / ((starsFilled s : ℚ) + (starsEmpty s : ℚ)) * 5
    else
      match findPercent s with
      | some d => (((⌊(digitsToNat d : ℚ) / 20 * 100 + 1 / 2⌋ : ℤ) : ℚ)) / 100
      | none => 0

/-- Modelled from the spec: the claimed rule (a) of the rating normalizer
uses the regex `/[0-5](\.[0-9])?/`; this is its leftmost match. -/
def findClaimZeroToFive : List Char → Option (List Char)
  | [] => none
  | c :: rest =>
    if '0' ≤ c ∧ c ≤ '5' then
      match rest with
      | '.' :: d :: _ => if d.isDigit then some [c, '.', d] else some [c]
      | _ => some [c]
    else findClaimZeroToFive rest

/-- Modelled from the spec: the rating normalizer as the claim states it,
with rule (a) reading `/[0-5](\.[0-9])?/` instead of the code's regex. -/
def claimedRating (s : List Char) : ℚ :=
  match findClaimZeroToFive s with
  | some lit => ratNumOf lit
  | none =>
    if 0 < starsFilled s ∨ 0 < starsEmpty s then
      (starsFilled s : ℚ) / ((starsFilled s : ℚ) + (starsEmpty s : ℚ)) * 5
    else
      match findPercent s with
      | some d => (((⌊(digitsToNat d : ℚ) / 20 * 100 + 1 / 2⌋ : ℤ) : ℚ)) / 100
      | none => 0

/-- `toLowerCase()` (ASCII scope, which covers every phrase list). -/
def lowerStr (l : List Char) : List Char := l.map Char.toLower

/-- The out-of-stock phrase list (product_scraper.js:835-844). -/
def outOfStockIndicators : List (List Char) :=
  [ "out of stock".data, "sold out".data, "unavailable".data,
    "no longer available".data, "not available".data, "out-of-stock".data,
    "not in stock".data, "backordered".data ]

/-- The in-stock phrase list (product_scraper.js:851-860). -/
def inStockIndicators : List (List Char) :=
  [ "in stock".data, "available".data, "in-stock".data, "ships".data,
    "shipping".data, "add to cart".data, "buy now".data, "ship".data ]

/-- `parseStockStatus` (product_scraper.js:830-867): the out-of-stock list
is checked first; the fall-through default is in-stock. -/
def parseStockStatus (text : List Char) : Bool :=
  if text = [] then true
  else
    let lowercaseText := lowerStr text
    if outOfStockIndicators.any (fun i => listIncludes lowercaseText i) then false
    else if inStockIndicators.any (fun i => listIncludes lowercaseText i) then true
    else true

/-- Stock level: a number or the label `LOW` (the `undefined` case is the
surrounding `Option`). -/
inductive StockLevel where
  | num : ℕ → StockLevel
  | low : StockLevel
deriving DecidableEq, Repr

/-- The case-insensitive words of `/(\d+)\s*(left|available|in stock|item)/i`. -/
def stockWords : List (List Char) :=
  [ "left".data, "available".data, "in stock".data, "item".data ]

/-- Leftmost match of `/(\d+)\s*(left|available|in stock|item)/i`
(product_scraper.js:876), returning the digit run. Both the greedy `\d+` and
the greedy `\s*` are deterministic here (shrinking them exposes a digit or a
space where a word letter is required). -/
def findStockNum : List Char → Option (List Char)
  | [] => none
  | c :: rest =>
    if c.isDigit then
      let d := (c :: rest).takeWhile Char.isDigit
      let after := ((c :: rest).dropWhile Char.isDigit).dropWhile isWsChar
      if stockWords.any (fun w => w.isPrefixOf (lowerStr after)) then some d
      else findStockNum rest
    else findStockNum rest

/-- `parseStockLevel` (product_scraper.js:871-888). -/
def parseStockLevel (text : List Char) : Option StockLevel :=
  if text = [] then none
  else
    let lowercaseText := lowerStr text
    match findStockNum text with
    | some d => some (StockLevel.num (digitsToNat d))
    | none =>
      if listIncludes lowercaseText ( "low stock".data) ||
          listIncludes lowercaseText ( "selling fast".data) then some StockLevel.low
      else if listIncludes lowercaseText ( "out of stock".data) ||
          listIncludes lowercaseText ( "sold out".data) then some (StockLevel.num 0)
      else none

/-- The three-character ellipsis marker appended on truncation. -/
def dots : List Char := "...".data

/-- The main-item description of the example scraper for non-empty extracted
content (example_scraper.ts:256-258): content over 200 characters is sliced
to 200 and suffixed with an ellipsis. -/
def mainItemDescription (content : List Char) : List Char :=
  if content = [] then "No Content Found".data
  else if 200 < content.length then content.take 200 ++ dots
  else content

/-- `shortDescription` of the product scraper (product_scraper.js:412-415):
the 200-character prefix is additionally trimmed before the ellipsis. -/
def shortDescription (description : List Char) : List Char :=
  if 200 < description.length then trim (description.take 200) ++ dots
  else description

/-- Concrete price text with two euro tokens. -/
def txtEur5025 : List Char := "€50 €25".data

/-- Concrete price text with two dollar tokens (spec example). -/
def txtUsd5025 : List Char := "$50 $25".data

/-- Concrete price text with two equal dollar tokens. -/
def txtUsd5050 : List Char := "$50 $50".data

/-- Concrete rating text with an out-of-range decimal. -/
def txtNineNine : List Char := "9.9".data

/-- Concrete glyph-only rating text (spec example). -/
def txtGlyphs : List Char := "★★★☆☆".data

/-- Concrete stock text (spec example). -/
def txtSoldOut : List Char := "Sold Out".data

/-- Concrete in-stock stock text. -/
def txtInStock : List Char := "In Stock".data

/-- Concrete non-numeric price text with surrounding whitespace. -/
def txtSpacedAbc : List Char := " abc ".data

/-- Concrete bare-number price text. -/
def txtFortyTwo : List Char := "42".data

/-- A currency hint that is a bare symbol rather than an ISO code. -/
def euroHint : List Char := "€".data

/-- A currency hint that is an ISO code. -/
def eurHint : List Char := "EUR".data

/-- A 201-character description whose 200th character is a space. -/
def descWithSpace : List Char := List.replicate 199 'a' ++ [' ', 'b']

/-- A 201-character description without whitespace. -/
def descLong : List Char := List.replicate 201 'x'

/-- A short description. -/
def descShort : List Char := "short".data

/-- The numeric texts of the `$50`/`$25` tokens. -/
def numFifty : List Char := ['5', '0']

/-- See `numFifty`. -/
def numTwentyFive : List Char := ['2', '5']

/-- The well-formed outputs of `matchNum`: the matched text re-matches
exactly, and every character is a digit, a comma, or a dot. -/
def NumShape (n : List Char) : Prop :=
  matchNum n = some (n, []) ∧ ∀ c ∈ n, c.isDigit = true ∨ c = ',' ∨ c = '.'

theorem take_drop_while_append (p : Char → Bool) (d t : List Char)
    (hd : ∀ c ∈ d, p c = true)
    (ht : t = [] ∨ ∃ c ts, t = c :: ts ∧ p c = false) :
    (d ++ t).takeWhile p = d ∧ (d ++ t).dropWhile p = t := by
  induction d with
  | nil =>
    rcases ht with rfl | ⟨c, ts, rfl, hc⟩
    · exact ⟨rfl, rfl⟩
    · simp [List.takeWhile, List.dropWhile, hc]
  | cons a as ih =>
    have ha : p a = true := hd a (by simp)
    have := ih (fun c hc => hd c (by simp [hc]))
    simp [List.takeWhile, List.dropWhile, ha, this.1, this.2]

theorem dropWhile_all_false (p : Char → Bool) (l : List Char)
    (h : ∀ c ∈ l, p c = false) : l.dropWhile p = l := by
  cases l with
  | nil => rfl
  | cons c t => simp [List.dropWhile, h c (by simp)]

theorem dropWhile_exists_append (p : Char → Bool) (l : List Char) :
    ∃ s, l = s ++ l.dropWhile p := by
  induction l with
  | nil => exact ⟨[], rfl⟩
  | cons c t ih =>
    by_cases hc : p c = true
    · rcases ih with ⟨s, hs⟩
      exact ⟨c :: s, by simp [List.dropWhile, hc]; exact hs⟩
    · exact ⟨[], by simp [List.dropWhile, Bool.eq_false_iff.mpr hc]⟩

theorem mem_of_mem_dropWhile (p : Char → Bool) (l : List Char) (c : Char)
    (h : c ∈ l.dropWhile p) : c ∈ l := by
  rcases dropWhile_exists_append p l with ⟨s, hs⟩
  rw [hs]
  exact List.mem_append_right s h

theorem dropWhile_dropWhile (p : Char → Bool) (l : List Char) :
    (l.dropWhile p).dropWhile p = l.dropWhile p := by
  induction l with
  | nil => rfl
  | cons c t ih =>
    by_cases hc : p c = true
    · simp [List.dropWhile, hc, ih]
    · simp [List.dropWhile, Bool.eq_false_iff.mpr hc]

theorem dropWhile_head_false (p : Char → Bool) (l : List Char) (c : Char)
    (t : List Char) (h : l.dropWhile p = c :: t) : p c = false := by
  induction l with
  | nil => simp at h
  | cons a as ih =>
    by_cases ha : p a = true
    · rw [List.dropWhile_cons_of_pos ha] at h
      exact ih h
    · rw [List.dropWhile_cons_of_neg ha] at h
      cases h
      exact Bool.eq_false_iff.mpr ha

theorem trimLeft_all_nonws (l : List Char) (h : ∀ c ∈ l, isWsChar c = false) :
    trimLeft l = l :=
  dropWhile_all_false isWsChar l h

theorem trimRight_all_nonws (l : List Char) (h : ∀ c ∈ l, isWsChar c = false) :
    trimRight l = l := by
  unfold trimRight
  rw [dropWhile_all_false isWsChar l.reverse (fun c hc => h c (List.mem_reverse.mp hc))]
  exact l.reverse_reverse

theorem trim_all_nonws (l : List Char) (h : ∀ c ∈ l, isWsChar c = false) :
    trim l = l := by
  unfold trim
  rw [trimLeft_all_nonws l h, trimRight_all_nonws l h]

theorem trimRight_exists_append (l : List Char) : ∃ s, l = trimRight l ++ s := by
  rcases dropWhile_exists_append isWsChar l.reverse with ⟨s, hs⟩
  refine ⟨s.reverse, ?_⟩
  unfold trimRight
  calc l = l.reverse.reverse := (List.reverse_reverse l).symm
    _ = (s ++ l.reverse.dropWhile isWsChar).reverse := by rw [← hs]
    _ = (l.reverse.dropWhile isWsChar).reverse ++ s.reverse := by
          rw [List.reverse_append]

theorem trimRight_trimRight (l : List Char) : trimRight (trimRight l) = trimRight l := by
  unfold trimRight
  rw [List.reverse_reverse, dropWhile_dropWhile]

theorem trimLeft_trimRight_of_trimLeft (l : List Char) :
    trimLeft (trimRight (trimLeft l)) = trimRight (trimLeft l) := by
  rcases hx : trimRight (trimLeft l) with _ | ⟨c, ys⟩
  · rfl
  · have hc : isWsChar c = false := by
      rcases trimRight_exists_append (trimLeft l) with ⟨s, hs⟩
      rw [hx] at hs
      have hl : trimLeft l = c :: (ys ++ s) := by simpa using hs
      exact dropWhile_head_false isWsChar l c (ys ++ s) hl
    unfold trimLeft
    rw [List.dropWhile_cons_of_neg (by simp [hc])]

theorem trim_trim (l : List Char) : trim (trim l) = trim l := by
  unfold trim
  rw [trimLeft_trimRight_of_trimLeft, trimRight_trimRight]

theorem ws_false_of_digit (c : Char) (h : c.isDigit = true) : isWsChar c = false := by
  cases hw : isWsChar c with
  | false => rfl
  | true =>
    exfalso
    simp only [isWsChar, Bool.or_eq_true, decide_eq_true_eq] at hw
    rcases hw with ((h1 | h1) | h1) | h1 <;> subst h1 <;> exact absurd h (by decide)

theorem ws_false_of_numchar (c : Char)
    (h : c.isDigit = true ∨ c = ',' ∨ c = '.') : isWsChar c = false := by
  rcases h with h | h | h
  · exact ws_false_of_digit c h
  · subst h; decide
  · subst h; decide

theorem ne_dollar_of_numchar (c : Char)
    (h : c.isDigit = true ∨ c = ',' ∨ c = '.') : c ≠ '$' := by
  intro he
  subst he
  rcases h with h | h | h
  · exact absurd h (by decide)
  · exact absurd h (by decide)
  · exact absurd h (by decide)

theorem dc_true_of_numchar_head (c : Char)
    (h : c.isDigit = true ∨ c = ',') : isDigitOrComma c = true := by
  unfold isDigitOrComma
  rcases h with h | h
  · simp [h]
  · simp [h]

theorem numShape_plain (d : List Char) (hd : d ≠ [])
    (hmem : ∀ c ∈ d, isDigitOrComma c = true) : NumShape d := by
  have hnum : ∀ c ∈ d, c.isDigit = true ∨ c = ',' ∨ c = '.' := by
    intro c hc
    rcases Bool.or_eq_true_iff.mp (hmem c hc) with h1 | h1
    · exact Or.inl h1
    · exact Or.inr (Or.inl (by simpa using h1))
  refine ⟨?_, hnum⟩
  rcases take_drop_while_append isDigitOrComma d [] hmem (Or.inl rfl) with ⟨ht, hdr⟩
  simp only [List.append_nil] at ht hdr
  unfold matchNum
  rw [ht, hdr, if_neg hd]

theorem numShape_frac (d : List Char) (a b : Char) (hd : d ≠ [])
    (hmem : ∀ c ∈ d, isDigitOrComma c = true)
    (ha : a.isDigit = true) (hb : b.isDigit = true) :
    NumShape (d ++ ['.', a, b]) := by
  have hnum : ∀ c ∈ d ++ ['.', a, b], c.isDigit = true ∨ c = ',' ∨ c = '.' := by
    intro c hc
    rcases List.mem_append.mp hc with h1 | h1
    · rcases Bool.or_eq_true_iff.mp (hmem c h1) with h2 | h2
      · exact Or.inl h2
      · exact Or.inr (Or.inl (by simpa using h2))
    · have h2 : c = '.' ∨ c = a ∨ c = b := by simpa using h1
      rcases h2 with rfl | rfl | rfl
      · exact Or.inr (Or.inr rfl)
      · exact Or.inl ha
      · exact Or.inl hb
  refine ⟨?_, hnum⟩
  rcases take_drop_while_append isDigitOrComma d ['.', a, b] hmem
      (Or.inr ⟨'.', [a, b], rfl, by decide⟩) with ⟨ht, hdr⟩
  unfold matchNum
  rw [ht, hdr, if_neg hd]
  simp [ha, hb]

theorem matchNum_shape (l n r : List Char) (h : matchNum l = some (n, r)) :
    NumShape n := by
  unfold matchNum at h
  by_cases hd : l.takeWhile isDigitOrComma = []
  · simp [hd] at h
  · rw [if_neg hd] at h
    have hmem : ∀ c ∈ l.takeWhile isDigitOrComma, isDigitOrComma c = true :=
      fun c hc => List.mem_takeWhile_imp hc
    split at h
    · rename_i a b rest2 heq
      split at h
      · rename_i hab
        rcases Option.some.inj h with h2
        have := congrArg Prod.fst h2
        simp only at this
        rw [← this]
        exact numShape_frac _ a b hd hmem
          (Bool.and_eq_true_iff.mp hab).1 (Bool.and_eq_true_iff.mp hab).2
      · rcases Option.some.inj h with h2
        have := congrArg Prod.fst h2
        simp only at this
        rw [← this]
        exact numShape_plain _ hd hmem
    · rcases Option.some.inj h with h2
      have := congrArg Prod.fst h2
      simp only at this
      rw [← this]
      exact numShape_plain _ hd hmem

theorem matchSymNumAt_shape (l : List Char) (s : Char) (n r : List Char)
    (h : matchSymNumAt l = some (s, n, r)) :
    priceSymbols.contains s = true ∧ NumShape n := by
  rcases l with _ | ⟨c, rest⟩
  · simp [matchSymNumAt] at h
  · simp only [matchSymNumAt] at h
    by_cases hc : priceSymbols.contains c = true
    · rw [if_pos hc] at h
      rcases hm : matchNum (rest.dropWhile isWsChar) with _ | ⟨n0, r0⟩
      · rw [hm] at h; simp at h
      · rw [hm] at h
        simp only [] at h
        rcases Option.some.inj h with h2
        have hs : c = s := congrArg (fun x => x.1) h2
        have hn : n0 = n := congrArg (fun x => x.2.1) h2
        rw [hs] at hc
        rw [hn] at hm
        exact ⟨hc, matchNum_shape _ n r0 hm⟩
    · rw [if_neg hc] at h
      simp at h

theorem findSymNum_shape (l : List Char) (s : Char) (n : List Char)
    (h : findSymNum l = some (s, n)) :
    priceSymbols.contains s = true ∧ NumShape n := by
  induction l with
  | nil => simp [findSymNum] at h
  | cons c rest ih =>
    rcases hma : matchSymNumAt (c :: rest) with _ | ⟨s0, n0, r0⟩
    · simp only [findSymNum, hma] at h
      exact ih h
    · simp only [findSymNum, hma] at h
      rcases Option.some.inj h with h2
      have hs : s0 = s := congrArg Prod.fst h2
      have hn : n0 = n := congrArg Prod.snd h2
      rw [hs, hn] at hma
      exact matchSymNumAt_shape _ s n r0 hma

theorem findNum_shape (l n : List Char) (h : findNum l = some n) : NumShape n := by
  induction l with
  | nil => simp [findNum] at h
  | cons c rest ih =>
    by_cases hc : isDigitOrComma c = true
    · rcases hm : matchNum (c :: rest) with _ | ⟨n0, r0⟩
      · simp only [findNum, if_pos hc, hm] at h
        exact Option.noConfusion h
      · simp only [findNum, if_pos hc, hm] at h
        have e := Option.some.inj h
        rw [← e]
        exact matchNum_shape _ n0 r0 hm
    · simp only [findNum, if_neg hc] at h
      exact ih h

theorem findSymNumLastNoNL_shape (l : List Char) (s : Char) (n : List Char)
    (h : findSymNumLastNoNL l = some (s, n)) :
    priceSymbols.contains s = true ∧ NumShape n := by
  induction l with
  | nil => simp [findSymNumLastNoNL] at h
  | cons c rest ih =>
    rcases hrec : (if c = '\n' || c = '\r' then none else findSymNumLastNoNL rest)
        with _ | ⟨s1, n1⟩
    · rcases hma : matchSymNumAt (c :: rest) with _ | ⟨s0, n0, r0⟩
      · simp only [findSymNumLastNoNL, hrec, hma] at h
        exact Option.noConfusion h
      · simp only [findSymNumLastNoNL, hrec, hma] at h
        rcases Option.some.inj h with h2
        have hs : s0 = s := congrArg Prod.fst h2
        have hn : n0 = n := congrArg Prod.snd h2
        rw [hs, hn] at hma
        exact matchSymNumAt_shape _ s n r0 hma
    · simp only [findSymNumLastNoNL, hrec] at h
      rcases Option.some.inj h with h2
      have hrec2 : findSymNumLastNoNL rest = some (s1, n1) := by
        by_cases hnl : (c = '\n' || c = '\r') = true
        · rw [if_pos hnl] at hrec; simp at hrec
        · rw [if_neg hnl] at hrec; exact hrec
      rw [h2] at hrec2
      exact ih hrec2

theorem findDiscountPair_shape (l : List Char) (s1 : Char) (n1 : List Char)
    (s2 : Char) (n2 : List Char)
    (h : findDiscountPair l = some (s1, n1, s2, n2)) :
    (priceSymbols.contains s1 = true ∧ NumShape n1) ∧
      (priceSymbols.contains s2 = true ∧ NumShape n2) := by
  induction l with
  | nil => simp [findDiscountPair] at h
  | cons c rest ih =>
    rcases hma : matchSymNumAt (c :: rest) with _ | ⟨t1, m1, r2⟩
    · simp only [findDiscountPair, hma] at h
      exact ih h
    · rcases hlast : findSymNumLastNoNL r2 with _ | ⟨t2, m2⟩
      · simp only [findDiscountPair, hma, hlast] at h
        exact ih h
      · simp only [findDiscountPair, hma, hlast] at h
        rcases Option.some.inj h with h2
        have e1 : t1 = s1 := congrArg (fun x => x.1) h2
        have e2 : m1 = n1 := congrArg (fun x => x.2.1) h2
        have e3 : t2 = s2 := congrArg (fun x => x.2.2.1) h2
        have e4 : m2 = n2 := congrArg (fun x => x.2.2.2) h2
        rw [e1, e2] at hma
        rw [e3, e4] at hlast
        exact ⟨matchSymNumAt_shape _ s1 n1 r2 hma,
          findSymNumLastNoNL_shape r2 s2 n2 hlast⟩

theorem matchNum_none_of (l : List Char)
    (h : ∀ c ∈ l, isDigitOrComma c = false) : matchNum l = none := by
  unfold matchNum
  have ht : l.takeWhile isDigitOrComma = [] := by
    cases l with
    | nil => rfl
    | cons c t => simp [List.takeWhile, h c (by simp)]
  rw [ht]
  simp

theorem matchSymNumAt_none_of (l : List Char)
    (h : ∀ c ∈ l, isDigitOrComma c = false) : matchSymNumAt l = none := by
  rcases l with _ | ⟨c, rest⟩
  · rfl
  · simp only [matchSymNumAt]
    by_cases hc : priceSymbols.contains c = true
    · rw [if_pos hc]
      rw [matchNum_none_of (rest.dropWhile isWsChar) (fun d hd =>
        h d (List.mem_cons_of_mem c (mem_of_mem_dropWhile isWsChar rest d hd)))]
    · rw [if_neg hc]

theorem findSymNum_none_of (l : List Char)
    (h : ∀ c ∈ l, isDigitOrComma c = false) : findSymNum l = none := by
  induction l with
  | nil => rfl
  | cons c rest ih =>
    simp only [findSymNum, matchSymNumAt_none_of (c :: rest) h]
    exact ih (fun d hd => h d (List.mem_cons_of_mem c hd))

theorem matchNum_cons_isSome (c : Char) (rest : List Char)
    (hc : isDigitOrComma c = true) : ∃ n r, matchNum (c :: rest) = some (n, r) := by
  unfold matchNum
  have ht : (c :: rest).takeWhile isDigitOrComma = c :: rest.takeWhile isDigitOrComma := by
    simp [List.takeWhile, hc]
  rw [ht]
  have hne : c :: rest.takeWhile isDigitOrComma ≠ [] := by simp
  rw [if_neg hne]
  split
  · split
    · exact ⟨_, _, rfl⟩
    · exact ⟨_, _, rfl⟩
  · exact ⟨_, _, rfl⟩

theorem findNum_none_imp (l : List Char) (h : findNum l = none) :
    ∀ c ∈ l, isDigitOrComma c = false := by
  induction l with
  | nil => intro c hc; simp at hc
  | cons c rest ih =>
    by_cases hc : isDigitOrComma c = true
    · exfalso
      rcases matchNum_cons_isSome c rest hc with ⟨n0, r0, hm⟩
      simp only [findNum, if_pos hc, hm] at h
      exact Option.noConfusion h
    · simp only [findNum, if_neg hc] at h
      intro d hd
      rcases List.mem_cons.mp hd with rfl | hd2
      · exact Bool.eq_false_iff.mpr hc
      · exact ih h d hd2

theorem findSymNum_cons_parts (c : Char) (rest : List Char)
    (h : findSymNum (c :: rest) = none) :
    matchSymNumAt (c :: rest) = none ∧ findSymNum rest = none := by
  rcases hma : matchSymNumAt (c :: rest) with _ | ⟨s, n, r⟩
  · simp only [findSymNum, hma] at h
    exact ⟨rfl, h⟩
  · simp only [findSymNum, hma] at h
    exact Option.noConfusion h

theorem findDiscountPair_none_of (l : List Char) (h : findSymNum l = none) :
    findDiscountPair l = none := by
  induction l with
  | nil => rfl
  | cons c rest ih =>
    rcases findSymNum_cons_parts c rest h with ⟨h1, h2⟩
    simp only [findDiscountPair, h1]
    exact ih h2

theorem numShape_nonws (n : List Char) (hn : NumShape n) :
    ∀ c ∈ n, isWsChar c = false :=
  fun c hc => ws_false_of_numchar c (hn.2 c hc)

theorem numShape_count_dollar (n : List Char) (hn : NumShape n) :
    n.count '$' = 0 := by
  rw [List.count_eq_zero]
  intro hmem
  exact (ne_dollar_of_numchar '$' (hn.2 '$' hmem)) rfl

theorem mem_priceSymbols_of_contains (s : Char)
    (hs : priceSymbols.contains s = true) : s ∈ priceSymbols := by
  simpa using hs

theorem priceSymbol_nonws (s : Char) (hs : priceSymbols.contains s = true) :
    isWsChar s = false := by
  have hmem : s ∈ priceSymbols := mem_priceSymbols_of_contains s hs
  have h5 : s = '₹' ∨ s = '$' ∨ s = '€' ∨ s = '£' ∨ s = '¥' := by
    simpa [priceSymbols] using hmem
  rcases h5 with rfl | rfl | rfl | rfl | rfl <;> decide

theorem findSymNum_token (s : Char) (n : List Char)
    (hs : priceSymbols.contains s = true) (hn : NumShape n) :
    findSymNum (s :: n) = some (s, n) := by
  have hdrop : n.dropWhile isWsChar = n :=
    dropWhile_all_false isWsChar n (numShape_nonws n hn)
  have hma : matchSymNumAt (s :: n) = some (s, n, []) := by
    simp only [matchSymNumAt, if_pos hs, hdrop, hn.1]
  simp only [findSymNum, hma]

theorem hasDiscountCheck_token (s : Char) (n : List Char) (hn : NumShape n) :
    hasDiscountCheck (s :: n) = false := by
  have h0 : n.count '$' = 0 := numShape_count_dollar n hn
  have hle : (s :: n).count '$' ≤ 1 := by
    rw [List.count_cons, h0]
    split <;> omega
  have h2 : decide (1 < (s :: n).count '$') = false := by
    simp [Nat.not_lt.mpr hle]
  unfold hasDiscountCheck
  rw [h2, Bool.and_false]

theorem parsePrice_token (s : Char) (n : List Char)
    (hs : priceSymbols.contains s = true) (hn : NumShape n) :
    parsePrice (s :: n) none =
      { amount := parseFloatQ (stripCommas n)
        currency := getCurrencyCode s
        formatted := (s :: n)
        discounted := false } := by
  have hne : (s :: n) ≠ ([] : List Char) := by simp
  have hnonws : ∀ c ∈ (s :: n), isWsChar c = false := by
    intro c hc
    rcases List.mem_cons.mp hc with rfl | hc2
    · exact priceSymbol_nonws c hs
    · exact numShape_nonws n hn c hc2
  have htrim : trim (s :: n) = s :: n := trim_all_nonws (s :: n) hnonws
  rw [parsePrice, if_neg hne, htrim]
  rw [parsePriceCore]
  simp only [hasDiscountCheck_token s n hn, if_neg (by simp : ¬(false = true))]
  simp only [priceBase, findSymNum_token s n hs hn]

theorem parsePrice_nofind (t : List Char) (hint : Option (List Char))
    (h0 : t ≠ []) (h1 : findNum (trim t) = none) :
    parsePrice t hint =
      { amount := some 0
        currency := jsOr hint usdCode
        formatted := trim t
        discounted := hasDiscountCheck (trim t) } := by
  have hnod : ∀ c ∈ trim t, isDigitOrComma c = false := findNum_none_imp (trim t) h1
  have hsym : findSymNum (trim t) = none := findSymNum_none_of (trim t) hnod
  have hpair : findDiscountPair (trim t) = none := findDiscountPair_none_of (trim t) hsym
  have hbase : ∀ b, priceBase (trim t) hint b =
      { amount := some 0
        currency := jsOr hint usdCode
        formatted := trim t
        discounted := b } := by
    intro b
    simp only [priceBase, hsym, h1]
  rw [parsePrice, if_neg h0, parsePriceCore]
  by_cases hd : hasDiscountCheck (trim t) = true
  · simp [hd, applyDiscount, hpair, hbase]
  · have hd2 : hasDiscountCheck (trim t) = false := Bool.eq_false_iff.mpr hd
    simp [hd2, hbase]

theorem priceBase_fa (ct : List Char) (b : Bool) :
    (∃ s n, priceSymbols.contains s = true ∧ NumShape n ∧
      (priceBase ct none b).formatted = (s :: n) ∧
      (priceBase ct none b).amount = parseFloatQ (stripCommas n)) ∨
    ((priceBase ct none b).formatted = ct ∧
      (priceBase ct none b).amount = some 0 ∧ findNum ct = none) := by
  rcases hsym : findSymNum ct with _ | ⟨s, n⟩
  · rcases hnum : findNum ct with _ | n
    · right
      refine ⟨?_, ?_, ?_⟩ <;> simp only [priceBase, hsym, hnum]
    · left
      have hshape := findNum_shape ct n hnum
      refine ⟨'$', n, by decide, hshape, ?_, ?_⟩
      · simp only [priceBase, hsym, hnum]
        rfl
      · simp only [priceBase, hsym, hnum]
  · left
    have hshape := findSymNum_shape ct s n hsym
    exact ⟨s, n, hshape.1, hshape.2, by simp only [priceBase, hsym],
      by simp only [priceBase, hsym]⟩

theorem parsePriceCore_fa (ct : List Char) :
    (∃ s n, priceSymbols.contains s = true ∧ NumShape n ∧
      (parsePriceCore ct none).formatted = (s :: n) ∧
      (parsePriceCore ct none).amount = parseFloatQ (stripCommas n)) ∨
    ((parsePriceCore ct none).formatted = ct ∧
      (parsePriceCore ct none).amount = some 0 ∧ findNum ct = none) := by
  rw [parsePriceCore]
  by_cases hd : hasDiscountCheck ct = true
  · simp only [hd, if_true]
    rcases hpair : findDiscountPair ct with _ | ⟨s1, n1, s2, n2⟩
    · simp only [applyDiscount, hpair]
      exact priceBase_fa ct true
    · rcases findDiscountPair_shape ct s1 n1 s2 n2 hpair with ⟨⟨hs1, hn1⟩, ⟨hs2, hn2⟩⟩
      simp only [applyDiscount, hpair]
      by_cases hgt : jsGT (parseFloatQ (stripCommas n1)) (parseFloatQ (stripCommas n2)) = true
      · simp only [hgt, if_true]
        exact Or.inl ⟨s2, n2, hs2, hn2, rfl, rfl⟩
      · have hgt2 : jsGT (parseFloatQ (stripCommas n1)) (parseFloatQ (stripCommas n2)) = false :=
          Bool.eq_false_iff.mpr hgt
        simp only [hgt2]
        exact Or.inl ⟨s1, n1, hs1, hn1, by simp, by simp⟩
  · have hd2 : hasDiscountCheck ct = false := Bool.eq_false_iff.mpr hd
    simp only [hd2]
    simp only [if_neg (by simp : ¬(false = true))]
    exact priceBase_fa ct false

theorem priceBase_discounted (ct : List Char) (hint : Option (List Char)) (b : Bool) :
    (priceBase ct hint b).discounted = b := by
  rcases hsym : findSymNum ct with _ | ⟨s, n⟩
  · rcases hnum : findNum ct with _ | n <;> simp [priceBase, hsym, hnum]
  · simp [priceBase, hsym]

theorem priceBase_orig (ct : List Char) (hint : Option (List Char)) (b : Bool) :
    (priceBase ct hint b).originalAmount = none := by
  rcases hsym : findSymNum ct with _ | ⟨s, n⟩
  · rcases hnum : findNum ct with _ | n <;> simp [priceBase, hsym, hnum]
  · simp [priceBase, hsym]

theorem priceBase_currency (ct : List Char) (hint : Option (List Char)) (b : Bool) :
    (priceBase ct hint b).currency =
      (match findSymNum ct with
        | some (s, _) => getCurrencyCode s
        | none => jsOr hint usdCode) := by
  rcases hsym : findSymNum ct with _ | ⟨s, n⟩
  · rcases hnum : findNum ct with _ | n <;> simp [priceBase, hsym, hnum]
  · simp [priceBase, hsym]

theorem applyDiscount_discounted (ct : List Char) (base : ProductPrice) :
    (applyDiscount ct base).discounted = base.discounted := by
  rcases hpair : findDiscountPair ct with _ | ⟨s1, n1, s2, n2⟩
  · simp [applyDiscount, hpair]
  · simp only [applyDiscount, hpair]
    by_cases hgt : jsGT (parseFloatQ (stripCommas n1)) (parseFloatQ (stripCommas n2)) = true
    · simp [hgt]
    · simp [Bool.eq_false_iff.mpr hgt]

theorem applyDiscount_currency (ct : List Char) (base : ProductPrice) :
    (applyDiscount ct base).currency = base.currency := by
  rcases hpair : findDiscountPair ct with _ | ⟨s1, n1, s2, n2⟩
  · simp [applyDiscount, hpair]
  · simp only [applyDiscount, hpair]
    by_cases hgt : jsGT (parseFloatQ (stripCommas n1)) (parseFloatQ (stripCommas n2)) = true
    · simp [hgt]
    · simp [Bool.eq_false_iff.mpr hgt]

theorem parsePriceCore_discounted (ct : List Char) (hint : Option (List Char)) :
    (parsePriceCore ct hint).discounted = hasDiscountCheck ct := by
  rw [parsePriceCore]
  by_cases hd : hasDiscountCheck ct = true
  · simp [hd, applyDiscount_discounted, priceBase_discounted]
  · simp [Bool.eq_false_iff.mpr hd, priceBase_discounted]

theorem parsePriceCore_currency (ct : List Char) (hint : Option (List Char)) :
    (parsePriceCore ct hint).currency =
      (match findSymNum ct with
        | some (s, _) => getCurrencyCode s
        | none => jsOr hint usdCode) := by
  rw [parsePriceCore]
  by_cases hd : hasDiscountCheck ct = true
  · simp [hd, applyDiscount_currency, priceBase_currency]
  · simp [Bool.eq_false_iff.mpr hd, priceBase_currency]

theorem hasDiscountCheck_eq (ct : List Char) :
    hasDiscountCheck ct = decide (1 < ct.count '$') := by
  unfold hasDiscountCheck
  by_cases h : 1 < ct.count '$'
  · have hmem : '$' ∈ ct := by
      have hpos : 0 < ct.count '$' := by omega
      exact List.count_pos_iff.mp hpos
    simp [h, hmem]
  · simp [h]

theorem trimLeft_length_le (l : List Char) : (trimLeft l).length ≤ l.length := by
  rcases dropWhile_exists_append isWsChar l with ⟨s, hs⟩
  have hlen := congrArg List.length hs
  rw [List.length_append] at hlen
  unfold trimLeft
  omega

theorem trimRight_length_le (l : List Char) : (trimRight l).length ≤ l.length := by
  rcases trimRight_exists_append l with ⟨s, hs⟩
  have hlen := congrArg List.length hs
  rw [List.length_append] at hlen
  omega

theorem trim_length_le (l : List Char) : (trim l).length ≤ l.length := by
  unfold trim
  exact le_trans (trimRight_length_le (trimLeft l)) (trimLeft_length_le l)

/-- C1 (amended): the discount-pair treatment is triggered by the dollar sign
only: `parsePrice` reports `discounted = true` exactly when the input is
nonempty and its trimmed text contains more than one `'$'` character. Texts
whose repeated currency symbols are drawn from `₹ € £ ¥` are not treated as
discount pairs. -/
theorem claim_C1_amended (text : List Char) (hint : Option (List Char)) :
    (parsePrice text hint).discounted =
      (decide (text ≠ []) && decide (1 < (trim text).count '$')) := by
  by_cases h0 : text = []
  · subst h0
    simp [parsePrice]
  · rw [parsePrice, if_neg h0, parsePriceCore_discounted, hasDiscountCheck_eq]
    simp [h0]

/-- C1 counterexample: the claim predicts `discounted = true` for the
two-euro-token text `"€50 €25"`, but `parsePrice` returns
`discounted = false` and parses it as a single price of 50. -/
theorem claim_C1_counterexample :
    (parsePrice txtEur5025 none).discounted = false ∧
      (parsePrice txtEur5025 none).amount = some 50 := by
  constructor
  · decide
  · decide

/-- C8 counterexample: with input `""` and hint `"EUR"`, the first run
returns currency `"EUR"` and formatted `"$0.00"`; re-parsing that formatted
text with the same hint returns currency `"USD"`, so the currency is not
idempotent. -/
theorem claim_C8_counterexample :
    (parsePrice ([] : List Char) (some eurHint)).currency = eurHint ∧
    (parsePrice (parsePrice ([] : List Char) (some eurHint)).formatted
        (some eurHint)).currency = usdCode ∧
    eurHint ≠ usdCode := by
  refine ⟨by decide, by decide, by decide⟩

/-- C8 (amended): re-running `parsePrice` on the `formatted` field of its own
output, with no currency hint, yields the same `amount`; the `currency` is in
general not preserved (the reparse maps the symbol in `formatted` through the
lookup table, while the first run may have echoed a hint or read a different
token). -/
theorem claim_C8_amended (text : List Char) :
    (parsePrice (parsePrice text none).formatted none).amount =
      (parsePrice text none).amount := by
  by_cases h0 : text = []
  · subst h0
    decide
  · have hr : parsePrice text none = parsePriceCore (trim text) none := by
      rw [parsePrice, if_neg h0]
    rcases parsePriceCore_fa (trim text) with ⟨s, n, hs, hn, hf, ha⟩ | ⟨hf, ha, hnone⟩
    · rw [hr, hf, ha, parsePrice_token s n hs hn]
    · rw [hr, hf, ha]
      by_cases hct : trim text = []
      · rw [hct]
        decide
      · rw [parsePrice_nofind (trim text) none hct (by rw [trim_trim]; exact hnone)]

/-- C9 counterexample: for the numeric-token-free input `" abc "` the claim
says the formatted field is the input passed through unchanged, but
`parsePrice` trims it to `"abc"`. -/
theorem claim_C9_counterexample :
    (parsePrice txtSpacedAbc none).formatted ≠ txtSpacedAbc := by decide

/-- C9 (amended): `parsePrice` is total; for a nonempty input whose trimmed
text contains no `[0-9,]+` token, it returns amount 0 and the trimmed input
as the formatted text, and the discounted flag is the result of the
dollar-count check (false unless the text has two `'$'` characters); for the
empty input the formatted text is `"$0.00"` instead. -/
theorem claim_C9_amended (text : List Char) (hint : Option (List Char))
    (h0 : text ≠ []) (h1 : findNum (trim text) = none) :
    (parsePrice text hint).amount = some 0 ∧
    (parsePrice text hint).formatted = trim text ∧
    (parsePrice text hint).discounted = decide (1 < (trim text).count '$') ∧
    parsePrice [] hint =
      { amount := some 0
        currency := jsOr hint usdCode
        formatted := zeroDollarStr
        discounted := false } := by
  rw [parsePrice_nofind text hint h0 h1]
  exact ⟨rfl, rfl, hasDiscountCheck_eq (trim text), rfl⟩

/-- C9 witness: the amended claim instantiated at `" abc "`. -/
theorem claim_C9_witness :
    (parsePrice txtSpacedAbc none).amount = some 0 ∧
    (parsePrice txtSpacedAbc none).formatted = trim txtSpacedAbc ∧
    (parsePrice txtSpacedAbc none).discounted =
      decide (1 < (trim txtSpacedAbc).count '$') ∧
    parsePrice [] none =
      { amount := some 0
        currency := jsOr none usdCode
        formatted := zeroDollarStr
        discounted := false } :=
  claim_C9_amended txtSpacedAbc none (by decide) (by decide)

/-- C10 counterexample: a hint that is explicitly given but empty is not
echoed back: the currency becomes `"USD"`, not `""` (JavaScript `||`
falsiness). -/
theorem claim_C10_counterexample :
    (parsePrice txtSpacedAbc (some ([] : List Char))).currency = usdCode ∧
    usdCode ≠ ([] : List Char) := by
  refine ⟨by decide, by decide⟩

/-- C10 (amended): when no symbol-prefixed token matches in the trimmed text,
the currency is the hint string itself if the hint is nonempty, and the
literal `"USD"` when the hint is absent or empty; `getCurrencyCode` is
applied only when a symbol-prefixed token is found. -/
theorem claim_C10_amended (text : List Char) (hint : Option (List Char)) :
    (findSymNum (trim text) = none →
      (parsePrice text hint).currency = jsOr hint usdCode) ∧
    (∀ s n, text ≠ [] → findSymNum (trim text) = some (s, n) →
      (parsePrice text hint).currency = getCurrencyCode s) := by
  constructor
  · intro hsym
    by_cases h0 : text = []
    · subst h0
      simp [parsePrice]
    · rw [parsePrice, if_neg h0, parsePriceCore_currency, hsym]
  · intro s n h0 hsym
    rw [parsePrice, if_neg h0, parsePriceCore_currency, hsym]

/-- C10 witness: the bare-symbol hint `"€"` is echoed verbatim (not mapped to
`"EUR"`) on the bare-number text `"42"`. -/
theorem claim_C10_witness :
    (parsePrice txtFortyTwo (some euroHint)).currency = euroHint := by
  have h := (claim_C10_amended txtFortyTwo (some euroHint)).1 (by decide)
  exact h.trans (by decide)

theorem parsePriceCore_le (ct : List Char) (hint : Option (List Char)) (o a : ℚ)
    (ho : (parsePriceCore ct hint).originalAmount = some (some o))
    (ha : (parsePriceCore ct hint).amount = some a) : a ≤ o := by
  rw [parsePriceCore] at ho ha
  by_cases hd : hasDiscountCheck ct = true
  · rw [hd, if_pos rfl] at ho ha
    rcases hpair : findDiscountPair ct with _ | ⟨s1, n1, s2, n2⟩
    · simp only [applyDiscount, hpair] at ho
      rw [priceBase_orig] at ho
      exact Option.noConfusion ho
    · simp only [applyDiscount, hpair] at ho ha
      by_cases hgt : jsGT (parseFloatQ (stripCommas n1)) (parseFloatQ (stripCommas n2)) = true
      · rw [if_pos hgt] at ho ha
        simp only at ho ha
        rcases Option.some.inj ho with h1
        rw [h1] at hgt
        rw [ha] at hgt
        have : a < o := of_decide_eq_true hgt
        exact le_of_lt this
      · have hgt2 : jsGT (parseFloatQ (stripCommas n1)) (parseFloatQ (stripCommas n2)) = false :=
          Bool.eq_false_iff.mpr hgt
        rw [if_neg (by rw [hgt2]; exact Bool.false_ne_true)] at ho ha
        simp only at ho ha
        rcases Option.some.inj ho with h1
        rw [h1, ha] at hgt2
        simp only [jsGT, decide_eq_false_iff_not] at hgt2
        exact le_of_not_lt hgt2
  · rw [Bool.eq_false_iff.mpr hd] at ho
    rw [if_neg (by simp : ¬(false = true))] at ho
    rw [priceBase_orig] at ho
    exact Option.noConfusion ho

/-- C5 counterexample: for `"$50 $50"` the price is reported as discounted
with `originalAmount` present and equal to `amount`, so `originalAmount` is
not strictly greater than `amount`. -/
theorem claim_C5_counterexample :
    (parsePrice txtUsd5050 none).discounted = true ∧
    (parsePrice txtUsd5050 none).originalAmount = some (some 50) ∧
    (parsePrice txtUsd5050 none).amount = some 50 ∧
    ¬((50 : ℚ) < 50) := by
  refine ⟨by decide, by decide, by decide, by decide⟩

/-- C5 (amended): whenever a price record has `discounted = true` and both
`originalAmount` and `amount` are actual numbers (not `NaN`),
`originalAmount ≥ amount`; equality is possible when the two extracted
prices coincide. -/
theorem claim_C5_amended (text : List Char) (hint : Option (List Char)) (o a : ℚ)
    (hdisc : (parsePrice text hint).discounted = true)
    (ho : (parsePrice text hint).originalAmount = some (some o))
    (ha : (parsePrice text hint).amount = some a) : a ≤ o := by
  by_cases h0 : text = []
  · subst h0
    rw [parsePrice, if_pos rfl] at ho
    exact Option.noConfusion ho
  · rw [parsePrice, if_neg h0] at ho ha
    exact parsePriceCore_le (trim text) hint o a ho ha

/-- C5 witness: the amended claim instantiated at `"$50 $25"`. -/
theorem claim_C5_witness : (25 : ℚ) ≤ 50 ∧ (parsePrice txtUsd5025 none).discounted = true :=
  ⟨claim_C5_amended txtUsd5025 none 50 25 (by decide) (by decide) (by decide), by decide⟩

/-- C2 counterexample: `"€50 €25"` has two currency-symbol+amount tokens with
values 50 and 25, but `parsePrice` returns `amount = 50` (not the minimum 25)
and no `originalAmount`, because the discount branch is triggered by `'$'`
characters only. -/
theorem claim_C2_counterexample :
    (parsePrice txtEur5025 none).amount = some 50 ∧
    (parsePrice txtEur5025 none).originalAmount = none := by
  refine ⟨by decide, by decide⟩

/-- C2 (amended): for price texts whose trimmed form contains more than one
`'$'` character and on which the discount-pair regex extracts two tokens with
numeric (non-NaN) values `v1` and `v2`, the result has
`amount = min v1 v2` and `originalAmount = max v1 v2` regardless of token
order, and when `max v1 v2 > 0` also
`discountPercentage = round((max-min)/max*100)`; in particular `"$50 $25"`
yields amount 25, originalAmount 50, currency `"USD"`, discountPercentage
50. -/
theorem claim_C2_amended (text : List Char) (hint : Option (List Char))
    (s1 s2 : Char) (n1 n2 : List Char) (v1 v2 : ℚ)
    (hcount : 1 < (trim text).count '$')
    (hpair : findDiscountPair (trim text) = some (s1, n1, s2, n2))
    (hv1 : parseFloatQ (stripCommas n1) = some v1)
    (hv2 : parseFloatQ (stripCommas n2) = some v2) :
    (parsePrice text hint).amount = some (min v1 v2) ∧
    (parsePrice text hint).originalAmount = some (some (max v1 v2)) ∧
    (0 < max v1 v2 →
      (parsePrice text hint).discountPercentage =
        some (some ((⌊(max v1 v2 - min v1 v2) / max v1 v2 * 100 + 1 / 2⌋ : ℤ) : ℚ))) := by
  have h0 : text ≠ [] := by
    intro he
    subst he
    simp only [trim, trimLeft, trimRight, List.dropWhile, List.reverse_nil,
      List.count_nil] at hcount
    omega
  have hd : hasDiscountCheck (trim text) = true := by
    rw [hasDiscountCheck_eq]
    exact decide_eq_true hcount
  rw [parsePrice, if_neg h0, parsePriceCore, hd, if_pos rfl]
  simp only [applyDiscount, hpair, hv1, hv2]
  by_cases hlt : v2 < v1
  · have hgt : jsGT (some v1) (some v2) = true := decide_eq_true hlt
    rw [if_pos hgt]
    have hmin : min v1 v2 = v2 := min_eq_right (le_of_lt hlt)
    have hmax : max v1 v2 = v1 := max_eq_left (le_of_lt hlt)
    refine ⟨by simp [hmin], by simp [hmax], ?_⟩
    intro hpos
    rw [hmax] at hpos
    have hne : v1 ≠ 0 := ne_of_gt hpos
    simp only [discountPct, jsSub, jsDiv, jsMul, jsRound, hmin, hmax]
    have hj : jsGT (some v1) (some 0) = true := decide_eq_true hpos
    rw [if_pos hj, if_neg hne]
    simp
  · have hle : v1 ≤ v2 := le_of_not_lt hlt
    have hgt : jsGT (some v1) (some v2) = false := decide_eq_false hlt
    rw [if_neg (by rw [hgt]; exact Bool.false_ne_true)]
    have hmin : min v1 v2 = v1 := min_eq_left hle
    have hmax : max v1 v2 = v2 := max_eq_right hle
    refine ⟨by simp [hmin], by simp [hmax], ?_⟩
    intro hpos
    rw [hmax] at hpos
    have hne : v2 ≠ 0 := ne_of_gt hpos
    simp only [discountPct, jsSub, jsDiv, jsMul, jsRound, hmin, hmax]
    have hj : jsGT (some v2) (some 0) = true := decide_eq_true hpos
    rw [if_pos hj, if_neg hne]
    simp

/-- C2 witness: the amended claim instantiated at `"$50 $25"`, giving the
spec's example values. -/
theorem claim_C2_witness :
    (parsePrice txtUsd5025 none).amount = some 25 ∧
    (parsePrice txtUsd5025 none).originalAmount = some (some 50) ∧
    (parsePrice txtUsd5025 none).discountPercentage = some (some 50) ∧
    (parsePrice txtUsd5025 none).currency = usdCode := by
  have h := claim_C2_amended txtUsd5025 none '$' '$' numFifty numTwentyFive 50 25
    (by decide) (by decide) (by decide) (by decide)
  refine ⟨h.1.trans (by decide), h.2.1.trans (by decide), ?_, by decide⟩
  have h3 := h.2.2 (by decide)
  exact h3.trans (by decide)

/-- C3: the claim (and the function's own doc comment) says `parseRating`
returns a value in [0, 5], but the numeric regex `([0-9]\.[0-9]|[0-5])`
accepts any digit-dot-digit literal: on `"9.9"` the function returns 9.9,
which exceeds 5. -/
theorem claim_C3_code_bug :
    parseRating txtNineNine = 99 / 10 ∧ ¬(parseRating txtNineNine ≤ 5) := by
  refine ⟨by decide, by decide⟩

/-- C4 counterexample: under the claim's rule (a) regex `/[0-5](\.[0-9])?/`,
the text `"9.9"` has no match, no glyphs and no percent, so the claimed
cascade returns 0; the code returns 9.9, because its actual regex is
`/([0-9]\.[0-9]|[0-5])/`. -/
theorem claim_C4_counterexample :
    claimedRating txtNineNine = 0 ∧ parseRating txtNineNine = 99 / 10 := by
  refine ⟨by decide, by decide⟩

/-- C4 (amended): `parseRating` applies exactly the first matching rule of
the priority cascade, with rule (a) reading the code's regex
`/([0-9]\.[0-9]|[0-5])/` (any digit-dot-digit decimal, even above 5, or a
single digit 0-5); rules (b) glyphs, (c) percentage and (d) default 0 are
as claimed, and the glyph-only text `"★★★☆☆"` yields exactly 3. -/
theorem claim_C4_amended :
    (∀ s, parseRating s = ratingByPriority s) ∧ parseRating txtGlyphs = 3 := by
  refine ⟨fun s => rfl, by decide⟩

set_option maxRecDepth 40000 in
/-- C6 counterexample: a 201-character description whose 200th character is a
space: the product scraper's `shortDescription` trims the 200-character
prefix before appending `"..."`, giving a 202-character result instead of
the claimed exact `first 200 + "..."` of length 203. -/
theorem claim_C6_counterexample :
    shortDescription descWithSpace ≠ descWithSpace.take 200 ++ dots ∧
    (shortDescription descWithSpace).length = 202 := by
  refine ⟨by decide, by decide⟩

/-- C6 (amended): for content longer than 200 characters the example
scraper's description is exactly the first 200 characters plus `"..."`
(total length 203), while the product scraper's `shortDescription` is the
whitespace-trimmed 200-character prefix plus `"..."` (total length at most
203); content of at most 200 characters passes through unchanged in both. -/
theorem claim_C6_amended (c : List Char) :
    (200 < c.length →
      mainItemDescription c = c.take 200 ++ dots ∧
      (mainItemDescription c).length = 203 ∧
      shortDescription c = trim (c.take 200) ++ dots ∧
      (shortDescription c).length ≤ 203) ∧
    (c ≠ [] → c.length ≤ 200 → mainItemDescription c = c ∧ shortDescription c = c) := by
  constructor
  · intro h
    have hne : c ≠ [] := by
      intro he
      subst he
      simp at h
    have htake : (c.take 200).length = 200 := by
      rw [List.length_take]
      omega
    refine ⟨?_, ?_, ?_, ?_⟩
    · rw [mainItemDescription, if_neg hne, if_pos h]
    · rw [mainItemDescription, if_neg hne, if_pos h]
      rw [List.length_append, htake]
      rfl
    · rw [shortDescription, if_pos h]
    · rw [shortDescription, if_pos h, List.length_append]
      have h1 := trim_length_le (c.take 200)
      rw [htake] at h1
      have h2 : dots.length = 3 := rfl
      omega
  · intro hne h
    have h2 : ¬(200 < c.length) := by omega
    constructor
    · rw [mainItemDescription, if_neg hne, if_neg h2]
    · rw [shortDescription, if_neg h2]

/-- C6 witness: the amended claim instantiated at a 201-character description
and at a short one. -/
theorem claim_C6_witness :
    (mainItemDescription descLong = descLong.take 200 ++ dots ∧
      (mainItemDescription descLong).length = 203 ∧
      shortDescription descLong = trim (descLong.take 200) ++ dots ∧
      (shortDescription descLong).length ≤ 203) ∧
    (mainItemDescription descShort = descShort ∧ shortDescription descShort = descShort) :=
  ⟨(claim_C6_amended descLong).1 (by rw [descLong, List.length_replicate]; omega),
    (claim_C6_amended descShort).2 (by decide) (by decide)⟩

/-- C7: `parseStockStatus` classifies case-insensitively by substring: any
out-of-stock phrase forces `false` (the out list is checked first), otherwise
an in-stock phrase gives `true`, and if neither list matches the default is
`true`; `"Sold Out"` yields `inStock = false` and
`parseStockLevel "Sold Out" = 0`. -/
theorem claim_C7_theorem :
    (∀ s, outOfStockIndicators.any (fun i => listIncludes (lowerStr s) i) = true →
      parseStockStatus s = false) ∧
    (∀ s, outOfStockIndicators.any (fun i => listIncludes (lowerStr s) i) = false →
      inStockIndicators.any (fun i => listIncludes (lowerStr s) i) = true →
      parseStockStatus s = true) ∧
    (∀ s, outOfStockIndicators.any (fun i => listIncludes (lowerStr s) i) = false →
      inStockIndicators.any (fun i => listIncludes (lowerStr s) i) = false →
      parseStockStatus s = true) ∧
    parseStockStatus txtSoldOut = false ∧
    parseStockLevel txtSoldOut = some (StockLevel.num 0) := by
  refine ⟨?_, ?_, ?_, by decide, by decide⟩
  · intro s hout
    by_cases h0 : s = []
    · subst h0
      exact absurd hout (by decide)
    · rw [parseStockStatus, if_neg h0]
      simp [hout]
  · intro s hout hin
    by_cases h0 : s = []
    · subst h0
      rfl
    · rw [parseStockStatus, if_neg h0]
      simp [hout, hin]
  · intro s hout hin
    by_cases h0 : s = []
    · subst h0
      rfl
    · rw [parseStockStatus, if_neg h0]
      simp [hout, hin]

/-- C7 witness: the status rules instantiated at `"Sold Out"` (out list) and
`"In Stock"` (in list). -/
theorem claim_C7_witness :
    parseStockStatus txtSoldOut = false ∧ parseStockStatus txtInStock = true :=
  ⟨claim_C7_theorem.1 txtSoldOut (by decide),
    claim_C7_theorem.2.1 txtInStock (by decide) (by decide)⟩
